import Mathlib

/-!
Verification of the sentence segmentation + context-aware keyword
classification engine of the gdp-dashboard repository
(`streamlit_app.py` and `Pages/Word_Metrics.py`).

Python strings are embedded as `List Char`; Python dicts (which iterate
in insertion order) as association lists; Python floats as exact
rationals `ℚ`; fallible operations (pandas column access, JSON parsing)
as `Except` / `Option`.
-/

/-- Embedding of a Python string. -/
abbrev PyStr := List Char

/-- Characters matched by the regex class `[.!?]` used both for sentence
splitting and for the punctuation-only filter. -/
def isTerm (c : Char) : Bool := c == '.' || c == '!' || c == '?'

/-- Characters matched by `\s` / stripped by `str.strip()` (ASCII whitespace
as Python treats it: space, tab, newline, carriage return, vertical tab,
form feed). -/
def isWS (c : Char) : Bool :=
  c == ' ' || c == '\t' || c == '\n' || c == '\r' || c == '\x0b' || c == '\x0c'

/-- Embedding of Python `str.lower()` (character-wise lowercasing). -/
def pyLower (s : PyStr) : PyStr := s.map Char.toLower

/-- Boolean prefix test (helper for the substring test below). -/
def isPrefixB : PyStr → PyStr → Bool
  | [], _ => true
  | _ :: _, [] => false
  | a :: as, b :: bs => a == b && isPrefixB as bs

/-- Embedding of Python `needle in hay` on strings: `needle` occurs as a
contiguous substring of `hay`. -/
def isSubstr (needle : PyStr) : PyStr → Bool
  | [] => needle.isEmpty
  | b :: bs => isPrefixB needle (b :: bs) || isSubstr needle bs

/-- Embedding of Python `" ".join(l)`. -/
def joinSp : List PyStr → PyStr
  | [] => []
  | [s] => s
  | s :: rest => s ++ ' ' :: joinSp rest

/-- A keyword dictionary: Python dict of category name to phrase list,
embedded as an association list in iteration (insertion) order. -/
abbrev KwDict := List (PyStr × List PyStr)

/-- The sentinel category returned when no dictionary category matches. -/
def uncategorized : PyStr := "Uncategorized".toList

/-- Predicate from the body of the classifier loop: some keyword of the
category (lower-cased) occurs in the context chunk. -/
def anyKwMatches (context_chunk : PyStr) (kws : List PyStr) : Bool :=
  kws.any (fun k => isSubstr (pyLower k) context_chunk)

/-- The lower-cased, space-joined context window built by
`classify_sentence_with_context` (streamlit_app.py lines 114-116):
`start = max(0, index - window_size)`, `end = min(len(sentences),
index + window_size + 1)`, `" ".join(sentences[start:end]).lower()`. -/
def contextChunk (index : Nat) (sentences : List PyStr) (window_size : Nat) : PyStr :=
  let start := index - window_size
  let stop := min sentences.length (index + window_size + 1)
  pyLower (joinSp ((sentences.drop start).take (stop - start)))

/-- Embedding of `classify_sentence_with_context` (streamlit_app.py
lines 113-120): first category, in dict iteration order, one of whose
keywords (lower-cased) occurs in the context chunk; `"Uncategorized"`
if none. -/
def classify_sentence_with_context (index : Nat) (sentences : List PyStr)
    (window_size : Nat) (kw_dict : List (PyStr × List PyStr)) : PyStr :=
  let context_chunk := contextChunk index sentences window_size
  match kw_dict.find? (fun ck => anyKwMatches context_chunk ck.2) with
  | some ck => ck.1
  | none => uncategorized

section SubstrLemmas

theorem isPrefixB_iff (n h : PyStr) : isPrefixB n h = true ↔ n <+: h := by
  induction n generalizing h with
  | nil => simp [isPrefixB]
  | cons a as ih =>
    cases h with
    | nil => simp [isPrefixB]
    | cons b bs =>
      simp [isPrefixB, List.cons_prefix_cons, ih, and_comm]

theorem isSubstr_iff (n h : PyStr) : isSubstr n h = true ↔ n <:+: h := by
  induction h with
  | nil => cases n <;> simp [isSubstr, List.isEmpty]
  | cons b bs ih =>
    simp [isSubstr, List.infix_cons_iff, isPrefixB_iff, ih]

end SubstrLemmas

section ClaimOne

/-- Spec-side context window (refinement comparison for C1): the sentences
at indices `max(0, i-w)` through `min(len-1, i+w)` inclusive, as the spec
words it. -/
def specWindow (sentences : List PyStr) (i w : Nat) : List PyStr :=
  (sentences.drop (i - w)).take (min (sentences.length - 1) (i + w) + 1 - (i - w))

/-- Spec-side category resolution (refinement comparison for C1): iterate
categories in dictionary order and return the first one of whose phrases
occurs case-insensitively in the chunk; sentinel if none. -/
def specFirstCategory (chunk : PyStr) : KwDict → PyStr
  | [] => uncategorized
  | (cat, kws) :: rest =>
    if kws.any (fun k => isSubstr (pyLower k) chunk) then cat
    else specFirstCategory chunk rest

/-- Spec-side classifier (refinement comparison for C1). -/
def specClassify (i : Nat) (sentences : List PyStr) (w : Nat) (d : KwDict) : PyStr :=
  specFirstCategory (pyLower (joinSp (specWindow sentences i w))) d

theorem specFirstCategory_eq_find (chunk : PyStr) (d : KwDict) :
    specFirstCategory chunk d =
      match d.find? (fun ck => anyKwMatches chunk ck.2) with
      | some ck => ck.1
      | none => uncategorized := by
  induction d with
  | nil => rfl
  | cons ck rest ih =>
    obtain ⟨cat, kws⟩ := ck
    cases hany : kws.any (fun k => isSubstr (pyLower k) chunk) <;>
      simp [specFirstCategory, anyKwMatches, List.find?_cons, hany, ih]

/-- C1: for a non-empty sentence list, valid index `i`, window size `w` and
any dictionary, the classifier returns the first category (in dictionary
iteration order) one of whose phrases occurs case-insensitively in the
lower-cased space-joined window spanning indices `max(0, i-w)` through
`min(len-1, i+w)` inclusive, and `"Uncategorized"` if none matches. -/
theorem claim1_context_classifier (sentences : List PyStr) (i w : Nat) (d : KwDict)
    (hne : sentences ≠ []) (hi : i < sentences.length) :
    classify_sentence_with_context i sentences w d = specClassify i sentences w d := by
  have hlen : 0 < sentences.length := List.length_pos.mpr hne
  have hwin : min sentences.length (i + w + 1) - (i - w) =
      min (sentences.length - 1) (i + w) + 1 - (i - w) := by omega
  simp only [classify_sentence_with_context, contextChunk, specClassify, specWindow]
  rw [specFirstCategory_eq_find, hwin]

/-- Witness for C1 at a concrete input (the spec's own example scenario). -/
theorem claim1_witness :
    classify_sentence_with_context 0 ["Hi there.".toList] 0
        [("greeting".toList, ["hi".toList])] =
      specClassify 0 ["Hi there.".toList] 0 [("greeting".toList, ["hi".toList])] :=
  claim1_context_classifier _ 0 0 _ (by decide) (by decide)

end ClaimOne

section WindowMonotone

theorem slice_infix_slice (l : List PyStr) (a a' n n' : Nat)
    (ha : a' ≤ a) (hn : a + n ≤ a' + n') :
    (l.drop a).take n <:+: (l.drop a').take n' := by
  have h1 : ((l.drop a').take n').drop (a - a') = (l.drop a).take (n' - (a - a')) := by
    rw [List.drop_take, List.drop_drop]
    congr 2
    omega
  have h2 : (l.drop a).take n = (((l.drop a').take n').drop (a - a')).take n := by
    rw [h1, List.take_take]
    congr 1
    omega
  rw [h2]
  exact ( List.take_prefix _ _).isInfix.trans (List.drop_suffix _ _).isInfix

theorem joinSp_prefix_append (m s : List PyStr) : joinSp m <+: joinSp (m ++ s) := by
  induction m with
  | nil => exact ⟨joinSp s, rfl⟩
  | cons a m' ih =>
    cases m' with
    | nil =>
      cases s with
      | nil => exact ⟨[], by simp⟩
      | cons b s' => exact ⟨' ' :: joinSp (b :: s'), rfl⟩
    | cons c m'' =>
      obtain ⟨t, ht⟩ := ih
      refine ⟨t, ?_⟩
      show (a ++ ' ' :: joinSp (c :: m'')) ++ t = a ++ ' ' :: joinSp ((c :: m'') ++ s)
      rw [← ht]
      simp

theorem joinSp_suffix_append (p m : List PyStr) : joinSp m <:+ joinSp (p ++ m) := by
  induction p with
  | nil => exact ⟨[], rfl⟩
  | cons a p' ih =>
    cases hq : p' ++ m with
    | nil =>
      have hm : m = [] := by
        rcases List.append_eq_nil.mp hq with ⟨_, h⟩
        exact h
      subst hm
      exact ⟨joinSp (a :: p'), by simp [joinSp]⟩
    | cons b q' =>
      have hstep : joinSp ((a :: p') ++ m) = a ++ ' ' :: joinSp (p' ++ m) := by
        simp only [List.cons_append, hq]
        rfl
      rw [hstep]
      exact ih.trans ⟨a ++ [' '], by simp⟩

theorem joinSp_infix_of_parts (p m s : List PyStr) :
    joinSp m <:+: joinSp (p ++ m ++ s) := by
  have h1 : joinSp m <+: joinSp (m ++ s) := joinSp_prefix_append m s
  have h2 : joinSp (m ++ s) <:+ joinSp (p ++ (m ++ s)) := joinSp_suffix_append p (m ++ s)
  have := h1.isInfix.trans h2.isInfix
  rwa [← List.append_assoc] at this

theorem contextChunk_infix_mono (i : Nat) (sents : List PyStr) (w w' : Nat)
    (hi : i < sents.length) (hw : w ≤ w') :
    contextChunk i sents w <:+: contextChunk i sents w' := by
  have hslice : (sents.drop (i - w)).take (min sents.length (i + w + 1) - (i - w)) <:+:
      (sents.drop (i - w')).take (min sents.length (i + w' + 1) - (i - w')) :=
    slice_infix_slice sents _ _ _ _ (by omega) (by omega)
  obtain ⟨p, s, heq⟩ := hslice
  simp only [contextChunk, pyLower]
  exact (heq ▸ joinSp_infix_of_parts p _ s).map Char.toLower

/-- C4 (amended): for a dictionary none of whose category names is the
sentinel string `"Uncategorized"`, a valid index `i` and window sizes
`w ≤ w'`, if the classifier assigns a category other than
`"Uncategorized"` at window size `w`, it still does so at `w'`. -/
theorem claim4_window_monotone (sents : List PyStr) (d : KwDict) (i w w' : Nat)
    (hname : ∀ ck ∈ d, ck.1 ≠ uncategorized)
    (hi : i < sents.length) (hw : w ≤ w')
    (h : classify_sentence_with_context i sents w d ≠ uncategorized) :
    classify_sentence_with_context i sents w' d ≠ uncategorized := by
  simp only [classify_sentence_with_context] at h ⊢
  rcases hfw : d.find? (fun ck => anyKwMatches (contextChunk i sents w) ck.2) with _ | ck
  · rw [hfw] at h
    simp at h
  · have hck := List.find?_some hfw
    have hmem := List.mem_of_find?_eq_some hfw
    have hmono := contextChunk_infix_mono i sents w w' hi hw
    have h2 : anyKwMatches (contextChunk i sents w') ck.2 = true := by
      simp only [anyKwMatches, List.any_eq_true] at hck ⊢
      obtain ⟨k, hk, hsub⟩ := hck
      exact ⟨k, hk, (isSubstr_iff _ _).mpr (((isSubstr_iff _ _).mp hsub).trans hmono)⟩
    rcases hfw' : d.find? (fun ck => anyKwMatches (contextChunk i sents w') ck.2) with _ | ck'
    · rw [List.find?_eq_none] at hfw'
      exact absurd h2 (by simpa using hfw' ck hmem)
    · have hmem' := List.mem_of_find?_eq_some hfw'
      rw [hfw']
      exact hname ck' hmem'

/-- Counterexample to C4 as stated: with the dictionary
`{"Uncategorized": ["y"], "A": ["x"]}` and sentences `["x", "y"]`, sentence 0
is classified `"A"` (not the sentinel) at window size 0, but `"Uncategorized"`
at the larger window size 1, because a category literally named
`"Uncategorized"` matches first in the wider window. -/
theorem claim4_counterexample :
    classify_sentence_with_context 0 ["x".toList, "y".toList] 0
        [("Uncategorized".toList, ["y".toList]), ("A".toList, ["x".toList])] ≠ uncategorized ∧
    classify_sentence_with_context 0 ["x".toList, "y".toList] 1
        [("Uncategorized".toList, ["y".toList]), ("A".toList, ["x".toList])] = uncategorized := by
  constructor <;> decide

/-- Witness for C4 (amended) at a concrete input. -/
theorem claim4_witness :
    classify_sentence_with_context 0 ["x".toList, "y".toList] 1
        [("A".toList, ["x".toList])] ≠ uncategorized :=
  claim4_window_monotone ["x".toList, "y".toList] [("A".toList, ["x".toList])] 0 0 1
    (by decide) (by decide) (by decide) (by decide)

end WindowMonotone

section ClaimTen

theorem find?_index_le {α : Type} (l : List α) (p : α → Bool) (k : Nat) (hk : k < l.length)
    (hp : p (l.get ⟨k, hk⟩) = true) :
    ∃ j, ∃ hj : j < l.length, j ≤ k ∧ l.find? p = some (l.get ⟨j, hj⟩) := by
  induction l generalizing k with
  | nil => simp at hk
  | cons a t ih =>
    cases ha : p a with
    | true =>
      exact ⟨0, by simp, Nat.zero_le _, by simp [List.find?_cons, ha]⟩
    | false =>
      cases k with
      | zero =>
        rw [List.get] at hp
        rw [hp] at ha
        simp at ha
      | succ k' =>
        have hk' : k' < t.length := by simpa using hk
        have hp' : p (t.get ⟨k', hk'⟩) = true := by simpa [List.get] using hp
        obtain ⟨j, hj, hle, hfind⟩ := ih k' hk' hp'
        refine ⟨j + 1, by simpa using hj, by omega, ?_⟩
        simp [List.find?_cons, ha, hfind]

/-- C10 (amended): for a dictionary none of whose category names is the
sentinel string `"Uncategorized"`, if the phrase list at position `k`
contains the empty string, the classifier never returns the sentinel and
always returns the name of a category at position at most `k` (phrases are
used untrimmed, and the empty string occurs in every context window). -/
theorem claim10_empty_phrase (sents : List PyStr) (i w : Nat) (d : KwDict)
    (hname : ∀ ck ∈ d, ck.1 ≠ uncategorized)
    (k : Nat) (hk : k < d.length) (hempty : [] ∈ (d.get ⟨k, hk⟩).2) :
    classify_sentence_with_context i sents w d ≠ uncategorized ∧
    ∃ j, ∃ hj : j < d.length, j ≤ k ∧
      classify_sentence_with_context i sents w d = (d.get ⟨j, hj⟩).1 := by
  have hp : anyKwMatches (contextChunk i sents w) (d.get ⟨k, hk⟩).2 = true := by
    simp only [anyKwMatches, List.any_eq_true]
    exact ⟨[], hempty, (isSubstr_iff _ _).mpr List.nil_infix⟩
  obtain ⟨j, hj, hle, hfind⟩ :=
    find?_index_le d (fun ck => anyKwMatches (contextChunk i sents w) ck.2) k hk hp
  constructor
  · simp only [classify_sentence_with_context]
    rw [hfind]
    exact hname _ (List.get_mem d j hj)
  · refine ⟨j, hj, hle, ?_⟩
    simp only [classify_sentence_with_context]
    rw [hfind]

/-- Counterexample to C10 as stated: the dictionary
`{"Uncategorized": ["x"], "A": [""]}` contains a category (`"A"`) whose
phrase list contains the empty string, yet the classifier returns the
string `"Uncategorized"` on sentence list `["x"]`, because an earlier
category is literally named `"Uncategorized"` and matches. -/
theorem claim10_counterexample :
    ("A".toList, [([] : PyStr)]) ∈
      [("Uncategorized".toList, ["x".toList]), ("A".toList, [([] : PyStr)])] ∧
    classify_sentence_with_context 0 ["x".toList] 0
        [("Uncategorized".toList, ["x".toList]), ("A".toList, [([] : PyStr)])] =
      uncategorized := by
  constructor <;> decide

/-- Witness for C10 (amended) at a concrete input. -/
theorem claim10_witness :
    classify_sentence_with_context 0 ["x".toList] 0
        [("A".toList, [([] : PyStr)])] ≠ uncategorized :=
  (claim10_empty_phrase ["x".toList] 0 0 [("A".toList, [([] : PyStr)])]
    (by decide) 0 (by decide) (by decide)).1

end ClaimTen

section Segmentation

/-- Lookbehind state for the splitter: whether the previously scanned
character is sentence-terminal punctuation. -/
def prevTerm : Option Char → Bool
  | none => false
  | some c => isTerm c

/-- Lookahead of the hashtag alternative `(?=#[^\s]+)`: the current
character is `#` and the next character exists and is not whitespace. -/
def hashAhead (c : Char) (rest : PyStr) : Bool :=
  c == '#' &&
    match rest.head? with
    | some d => !isWS d
    | none => false

/-- Scanner embedding `re.split(pattern, str(row["Context"]))`
(streamlit_app.py lines 132-135) for pattern `(?<=[.!?])\s+`, extended by
`|(?=#[^\s]+)` when `include_hashtags` is set. `skip` is true while inside
a whitespace run matched by `\s+` (those characters are consumed by the
match and belong to no fragment); the hashtag alternative is an empty
match, so it splits without consuming. All fragments are returned in
order, empty ones included, exactly as `re.split` returns them. -/
def reSplitGo (hashtags : Bool) (skip : Bool) (prev : Option Char) (cur : PyStr) :
    PyStr → List PyStr
  | [] => [cur.reverse]
  | c :: rest =>
    if skip && isWS c then reSplitGo hashtags true (some c) cur rest
    else if prevTerm prev && isWS c then
      cur.reverse :: reSplitGo hashtags true (some c) [] rest
    else if hashtags && hashAhead c rest then
      cur.reverse :: reSplitGo hashtags false (some c) [c] rest
    else reSplitGo hashtags false (some c) (c :: cur) rest

/-- Embedding of the `re.split` call on a whole text. -/
def re_split (hashtags : Bool) (t : PyStr) : List PyStr :=
  reSplitGo hashtags false none [] t

/-- Embedding of Python `str.strip()`. -/
def pyStrip (s : PyStr) : PyStr := ((s.dropWhile isWS).reverse.dropWhile isWS).reverse

/-- Helper for `re.sub(r"\s+", " ", s)`: `inWS` is true while inside a
whitespace run that has already emitted its single replacement space. -/
def collapseGo (inWS : Bool) : PyStr → PyStr
  | [] => []
  | c :: rest =>
    if isWS c then
      if inWS then collapseGo true rest else ' ' :: collapseGo true rest
    else c :: collapseGo false rest

/-- Embedding of `re.sub(r"\s+", " ", s)`: every maximal whitespace run
becomes a single space. -/
def collapseWS (s : PyStr) : PyStr := collapseGo false s

/-- The cleaning applied to each fragment (streamlit_app.py line 136):
`re.sub(r"\s+", " ", s.strip())`. -/
def cleanFragment (s : PyStr) : PyStr := collapseWS (pyStrip s)

/-- The filter applied to cleaned fragments (streamlit_app.py line 137):
keep `s` iff it is non-empty and not a full match of `[.!?]+`. -/
def keepFragment (s : PyStr) : Bool := !s.isEmpty && !(s.all isTerm)

/-- The cleaned, filtered sentence list of one text
(streamlit_app.py lines 132-137). -/
def segmentText (hashtags : Bool) (t : PyStr) : List PyStr :=
  ((re_split hashtags t).map cleanFragment).filter keepFragment

/-- `enumerate(cleaned, start=1)`: pair each surviving unit with its
1-based position. -/
def numberUnits (l : List PyStr) : List (Nat × PyStr) :=
  l.enum.map (fun p => (p.1 + 1, p.2))

/-- Segmentation plus numbering, the per-text part of `process_dataframe`. -/
def processText (hashtags : Bool) (t : PyStr) : List (Nat × PyStr) :=
  numberUnits (segmentText hashtags t)

/-- Spec-side splitter (refinement comparison for C2, amended hashtag
clause): cut the text exactly at boundary positions, consuming no
characters. A boundary lies between a sentence-terminal punctuation mark and a
whitespace character that follows it, and, when hashtag handling is on,
immediately before any `#` that is followed by a non-whitespace character. -/
def specSplitGo (hashtags : Bool) (prev : Option Char) (cur : PyStr) :
    PyStr → List PyStr
  | [] => [cur.reverse]
  | c :: rest =>
    if (prevTerm prev && isWS c) || (hashtags && hashAhead c rest) then
      cur.reverse :: specSplitGo hashtags (some c) [c] rest
    else specSplitGo hashtags (some c) (c :: cur) rest

/-- Spec-side split of a whole text. -/
def specSplit (hashtags : Bool) (t : PyStr) : List PyStr :=
  specSplitGo hashtags none [] t

/-- Spec-side segmentation pipeline built on the boundary splitter. -/
def specSegment (hashtags : Bool) (t : PyStr) : List (Nat × PyStr) :=
  numberUnits (((specSplit hashtags t).map cleanFragment).filter keepFragment)

/-- Start-of-token test: a whitespace-delimited token starts at the current
character iff nothing precedes it or the preceding character is whitespace. -/
def prevTokenStart : Option Char → Bool
  | none => true
  | some p => isWS p

/-- Splitter under C2's literal "token beginning with `#`" reading: a
hashtag boundary falls only immediately before a whitespace-delimited
token whose first character is `#`. -/
def tokSplitGo (hashtags : Bool) (prev : Option Char) (cur : PyStr) :
    PyStr → List PyStr
  | [] => [cur.reverse]
  | c :: rest =>
    if (prevTerm prev && isWS c) || (hashtags && c == '#' && prevTokenStart prev) then
      cur.reverse :: tokSplitGo hashtags (some c) [c] rest
    else tokSplitGo hashtags (some c) (c :: cur) rest

/-- Segmentation pipeline under the "token beginning with `#`" reading. -/
def tokSegment (hashtags : Bool) (t : PyStr) : List (Nat × PyStr) :=
  numberUnits (((tokSplitGo hashtags none [] t).map cleanFragment).filter keepFragment)

example : segmentText true "Hi there. How are you? #blessed".toList =
    ["Hi there.".toList, "How are you?".toList, "#blessed".toList] := by decide

example : re_split true "a. #b".toList = ["a.".toList, [], "#b".toList] := by decide

/-- Counterexample to C2 as stated: on the text `"a#b"` (hashtag handling
enabled) the code splits before the mid-token `#` and yields two units
`"a"` and `"#b"`, while splitting only before whitespace-delimited tokens
beginning with `#` (the claim's wording) would leave the single unit
`"a#b"`. -/
theorem claim2_counterexample :
    processText true "a#b".toList = [(1, "a".toList), (2, "#b".toList)] ∧
    tokSegment true "a#b".toList = [(1, "a#b".toList)] := by
  constructor <;> decide

end Segmentation

section StripLemmas

theorem ws_not_term {c : Char} (h : isWS c = true) : isTerm c = false := by
  simp only [isWS, Bool.or_eq_true, beq_iff_eq] at h
  rcases h with ((((h | h) | h) | h) | h) | h <;> subst h <;> rfl

theorem ws_ne_hash {c : Char} (h : isWS c = true) : (c == '#') = false := by
  simp only [isWS, Bool.or_eq_true, beq_iff_eq] at h
  rcases h with ((((h | h) | h) | h) | h) | h <;> subst h <;> rfl

theorem dropWhile_ws_append {ws x : PyStr} (h : ws.all isWS = true) :
    (ws ++ x).dropWhile isWS = x.dropWhile isWS := by
  induction ws with
  | nil => rfl
  | cons a t ih =>
    simp only [List.all_cons, Bool.and_eq_true] at h
    simp [List.dropWhile_cons, h.1, ih h.2]

theorem pyStrip_ws_append {ws x : PyStr} (h : ws.all isWS = true) :
    pyStrip (ws ++ x) = pyStrip x := by
  unfold pyStrip
  rw [dropWhile_ws_append h]

theorem pyStrip_rev_ws {cur ws : PyStr} (h : ws.all isWS = true) :
    pyStrip ((cur ++ ws).reverse) = pyStrip cur.reverse := by
  rw [List.reverse_append]
  exact pyStrip_ws_append (by simpa using h)

theorem pyStrip_rev_ws_nil {ws : PyStr} (h : ws.all isWS = true) :
    pyStrip ws.reverse = pyStrip [] := by
  have h2 : pyStrip ((([] : PyStr) ++ ws).reverse) = pyStrip ([] : PyStr).reverse :=
    pyStrip_rev_ws h
  simpa using h2

theorem mem_of_mem_dropWhile {c : Char} {p : Char → Bool} :
    ∀ {l : PyStr}, c ∈ l.dropWhile p → c ∈ l := by
  intro l h
  induction l with
  | nil => simpa using h
  | cons a t ih =>
    rw [List.dropWhile_cons] at h
    by_cases ha : p a = true
    · rw [if_pos ha] at h
      exact List.mem_cons_of_mem a (ih h)
    · rw [if_neg ha] at h
      exact h

theorem all_ws_of_dropWhile_all {t : PyStr}
    (h : ∀ c ∈ t.dropWhile isWS, isWS c = true) : ∀ c ∈ t, isWS c = true := by
  induction t with
  | nil => simp
  | cons a u ih =>
    intro c hc
    rw [List.dropWhile_cons] at h
    by_cases ha : isWS a = true
    · rw [if_pos ha] at h
      rcases List.mem_cons.mp hc with rfl | hm
      · exact ha
      · exact ih h c hm
    · rw [if_neg ha] at h
      exact h c hc

end StripLemmas


section SplitEquiv

theorem splitGo_strip_eq (hashtags : Bool) (rest : PyStr) :
    (∀ (prev : Option Char) (cur ws : PyStr), ws.all isWS = true →
      (reSplitGo hashtags false prev cur rest).map pyStrip =
        (specSplitGo hashtags prev (cur ++ ws) rest).map pyStrip) ∧
    (∀ (p : Char) (ws : PyStr), isWS p = true → ws.all isWS = true →
      (reSplitGo hashtags true (some p) [] rest).map pyStrip =
        (specSplitGo hashtags (some p) ws rest).map pyStrip) := by
  induction rest with
  | nil =>
    constructor
    · intro prev cur ws hws
      simp only [reSplitGo, specSplitGo, List.map_cons, List.map_nil]
      rw [pyStrip_rev_ws hws]
    · intro p ws hp hws
      simp only [reSplitGo, specSplitGo, List.map_cons, List.map_nil]
      rw [pyStrip_rev_ws_nil hws]
      rfl
  | cons c rest ih =>
    have hskip : ∀ (b : Bool), (false && b) = false := fun b => rfl
    constructor
    · intro prev cur ws hws
      show List.map pyStrip (if (false && isWS c) = true then _ else _) = _
      rw [if_neg (by simp)]
      by_cases h1 : (prevTerm prev && isWS c) = true
      · have hc : isWS c = true := ((Bool.and_eq_true _ _).mp h1).2
        rw [if_pos h1]
        show _ = List.map pyStrip (if ((prevTerm prev && isWS c) || (hashtags && hashAhead c rest)) = true
          then _ else _)
        rw [if_pos (by simp [h1])]
        simp only [List.map_cons]
        rw [pyStrip_rev_ws hws]
        congr 1
        exact ih.2 c [c] hc (by simp [hc])
      · have h1f : (prevTerm prev && isWS c) = false := by simpa using h1
        rw [if_neg h1]
        by_cases h2 : (hashtags && hashAhead c rest) = true
        · rw [if_pos h2]
          show _ = List.map pyStrip (if ((prevTerm prev && isWS c) || (hashtags && hashAhead c rest)) = true
            then _ else _)
          rw [if_pos (by simp [h2])]
          simp only [List.map_cons]
          rw [pyStrip_rev_ws hws]
          congr 1
          have := ih.1 (some c) [c] [] rfl
          simpa using this
        · rw [if_neg h2]
          show _ = List.map pyStrip (if ((prevTerm prev && isWS c) || (hashtags && hashAhead c rest)) = true
            then _ else _)
          have h2f : (hashtags && hashAhead c rest) = false := by simpa using h2
          rw [if_neg (by rw [h1f, h2f]; simp)]
          have := ih.1 (some c) (c :: cur) ws hws
          simpa using this
    · intro p ws hp hws
      have hpt : prevTerm (some p) = false := by
        simp [prevTerm, ws_not_term hp]
      by_cases hc : isWS c = true
      · show List.map pyStrip (if (true && isWS c) = true then _ else _) = _
        rw [if_pos (by simp [hc])]
        show _ = List.map pyStrip (if ((prevTerm (some p) && isWS c) || (hashtags && hashAhead c rest)) = true
          then _ else _)
        have hh : hashAhead c rest = false := by
          simp [hashAhead, ws_ne_hash hc]
        rw [if_neg (by simp [hpt, hh])]
        exact ih.2 c (c :: ws) hc (by simp [hc, hws])
      · have hcf : isWS c = false := by simpa using hc
        show List.map pyStrip (if (true && isWS c) = true then _ else _) = _
        rw [if_neg (by simp [hcf])]
        rw [if_neg (by simp [hcf])]
        by_cases h2 : (hashtags && hashAhead c rest) = true
        · rw [if_pos h2]
          show _ = List.map pyStrip (if ((prevTerm (some p) && isWS c) || (hashtags && hashAhead c rest)) = true
            then _ else _)
          rw [if_pos (by simp [h2])]
          simp only [List.map_cons, List.reverse_nil]
          congr 1
          · exact (pyStrip_rev_ws_nil hws).symm
          · have := ih.1 (some c) [c] [] rfl
            simpa using this
        · rw [if_neg h2]
          show _ = List.map pyStrip (if ((prevTerm (some p) && isWS c) || (hashtags && hashAhead c rest)) = true
            then _ else _)
          have h2f : (hashtags && hashAhead c rest) = false := by simpa using h2
          rw [if_neg (by rw [hpt, h2f]; simp)]
          have := ih.1 (some c) [c] ws hws
          simpa using this

/-- C2 (amended): segmentation equals the boundary description — split
exactly after a sentence-terminal punctuation mark followed by whitespace
and (when enabled) immediately before any `#` followed by a non-whitespace
character, then collapse whitespace runs, trim, discard empty or
punctuation-only fragments, and number the survivors from 1. -/
theorem claim2_segmentation (hashtags : Bool) (t : PyStr) :
    processText hashtags t = specSegment hashtags t := by
  unfold processText segmentText specSegment re_split specSplit
  have hstrip := (splitGo_strip_eq hashtags t).1 none [] [] rfl
  simp only [List.nil_append] at hstrip
  have hmapclean : ∀ l : List PyStr, l.map cleanFragment = (l.map pyStrip).map collapseWS := by
    intro l
    rw [List.map_map]
    rfl
  rw [hmapclean, hmapclean, hstrip]

end SplitEquiv

section ClaimNine

/-- Models `str(row["Context"])` on a possibly missing text cell: pandas
reads a missing CSV field as the float NaN, and Python `str` renders that
as `"nan"`. -/
def strOfCell : Option PyStr → PyStr
  | none => "nan".toList
  | some s => s

theorem reSplitGo_no_boundary (hashtags : Bool) :
    ∀ (rest : PyStr) (prev : Option Char) (cur : PyStr),
      prevTerm prev = false →
      (∀ c ∈ rest, isTerm c = false ∧ (c == '#') = false) →
      reSplitGo hashtags false prev cur rest = [cur.reverse ++ rest] := by
  intro rest
  induction rest with
  | nil =>
    intro prev cur _ _
    simp [reSplitGo]
  | cons c rest ih =>
    intro prev cur hprev hchars
    obtain ⟨hct, hch⟩ := hchars c (List.mem_cons_self c rest)
    show (if (false && isWS c) = true then _ else _) = _
    rw [if_neg (by simp)]
    rw [if_neg (by rw [hprev]; simp)]
    rw [if_neg (by simp [hashAhead, hch])]
    rw [ih (some c) (c :: cur) (by simp [prevTerm, hct])
      (fun d hd => hchars d (List.mem_cons_of_mem c hd))]
    simp

theorem pyStrip_eq_nil_iff (t : PyStr) : pyStrip t = [] ↔ t.all isWS = true := by
  unfold pyStrip
  constructor
  · intro h
    have h1 : (t.dropWhile isWS).reverse.dropWhile isWS = [] := by
      simpa using h
    have h2 : ∀ c ∈ (t.dropWhile isWS).reverse, isWS c = true :=
      List.dropWhile_eq_nil_iff.mp h1
    have h3 : ∀ c ∈ t.dropWhile isWS, isWS c = true := by
      intro c hc
      exact h2 c (List.mem_reverse.mpr hc)
    rw [List.all_eq_true]
    exact all_ws_of_dropWhile_all h3
  · intro h
    have h1 : t.dropWhile isWS = [] := by
      rw [List.dropWhile_eq_nil_iff]
      intro c hc
      exact List.all_eq_true.mp h c hc
    simp [h1]

theorem collapseGo_ne_nil (c : Char) (rest : PyStr) :
    collapseGo false (c :: rest) ≠ [] := by
  show (if isWS c = true then if false = true then _ else _ else _) ≠ []
  by_cases hc : isWS c = true
  · rw [if_pos hc, if_neg (by simp)]
    simp
  · rw [if_neg hc]
    simp

theorem mem_collapseGo {c : Char} : ∀ (b : Bool) (x : PyStr),
    c ∈ collapseGo b x → c = ' ' ∨ c ∈ x := by
  intro b x
  induction x generalizing b with
  | nil => simp [collapseGo]
  | cons a t ih =>
    intro hmem
    by_cases ha : isWS a = true
    · rw [show collapseGo b (a :: t) = if isWS a = true then
        (if b = true then collapseGo true t else ' ' :: collapseGo true t)
        else a :: collapseGo false t from rfl, if_pos ha] at hmem
      cases b
      · rw [if_neg (by simp)] at hmem
        simp only [List.mem_cons] at hmem
        rcases hmem with h | h
        · exact Or.inl h
        · rcases ih true h with h | h
          · exact Or.inl h
          · exact Or.inr (List.mem_cons_of_mem a h)
      · rw [if_pos rfl] at hmem
        rcases ih true hmem with h | h
        · exact Or.inl h
        · exact Or.inr (List.mem_cons_of_mem a h)
    · rw [show collapseGo b (a :: t) = if isWS a = true then
        (if b = true then collapseGo true t else ' ' :: collapseGo true t)
        else a :: collapseGo false t from rfl, if_neg ha] at hmem
      simp only [List.mem_cons] at hmem
      rcases hmem with h | h
      · exact Or.inr (List.mem_cons.mpr (Or.inl h))
      · rcases ih false h with h | h
        · exact Or.inl h
        · exact Or.inr (List.mem_cons_of_mem a h)

theorem mem_pyStrip {c : Char} {t : PyStr} (h : c ∈ pyStrip t) : c ∈ t := by
  unfold pyStrip at h
  rw [List.mem_reverse] at h
  have h1 := mem_of_mem_dropWhile h
  rw [List.mem_reverse] at h1
  exact mem_of_mem_dropWhile h1

/-- C9 (amended): an empty or all-whitespace text yields zero sentence
units; a missing text cell is stringified to `"nan"` and yields one unit
`"nan"`; a text containing no sentence-terminal punctuation characters and
no `#` that is not entirely whitespace yields exactly one unit, the whole
text trimmed with whitespace runs collapsed. -/
theorem claim9_empty_and_single (hashtags : Bool) (t : PyStr) :
    (t.all isWS = true → processText hashtags t = []) ∧
    ((∀ c ∈ t, isTerm c = false ∧ (c == '#') = false) → ¬ t.all isWS = true →
      processText hashtags t = [(1, cleanFragment t)]) ∧
    processText hashtags (strOfCell none) = [(1, "nan".toList)] := by
  refine ⟨?_, ?_, ?_⟩
  · intro hws
    have hchars : ∀ c ∈ t, isTerm c = false ∧ (c == '#') = false := by
      intro c hc
      have := List.all_eq_true.mp hws c hc
      exact ⟨ws_not_term this, ws_ne_hash this⟩
    unfold processText segmentText re_split
    rw [reSplitGo_no_boundary hashtags t none [] rfl hchars]
    have hstrip : pyStrip t = [] := (pyStrip_eq_nil_iff t).mpr hws
    simp [cleanFragment, hstrip, collapseWS, collapseGo, keepFragment, numberUnits]
  · intro hchars hnw
    unfold processText segmentText re_split
    rw [reSplitGo_no_boundary hashtags t none [] rfl hchars]
    have hne : pyStrip t ≠ [] := fun h => hnw ((pyStrip_eq_nil_iff t).mp h)
    have hclean_ne : cleanFragment t ≠ [] := by
      unfold cleanFragment collapseWS
      cases hs : pyStrip t with
      | nil => exact absurd hs hne
      | cons a u => exact collapseGo_ne_nil a u
    have hkeep : keepFragment (cleanFragment t) = true := by
      unfold keepFragment
      cases hs : cleanFragment t with
      | nil => exact absurd hs hclean_ne
      | cons a u =>
        have hmem : a ∈ cleanFragment t := by rw [hs]; exact List.mem_cons_self a u
        have hat : isTerm a = false := by
          rcases mem_collapseGo false (pyStrip t) hmem with h | h
          · rw [h]; rfl
          · exact (hchars a (mem_pyStrip h)).1
        simp [List.all_cons, hat]
    simp [hkeep, numberUnits, List.enum]
  · cases hashtags <;> decide

/-- Counterexample to C9 as stated: the one-space text `" "` is non-empty
and contains neither sentence-terminal punctuation nor hashtags, yet
segmentation yields zero units (not one); and a missing text cell is
stringified to `"nan"` and yields one unit (not zero). -/
theorem claim9_counterexample :
    ([' '] : PyStr) ≠ [] ∧ isTerm ' ' = false ∧ (' ' == '#') = false ∧
    processText true [' '] = [] ∧
    processText true (strOfCell none) = [(1, "nan".toList)] := by
  refine ⟨by decide, by decide, by decide, by decide, by decide⟩

/-- Witness for C9 (amended) at a concrete input. -/
theorem claim9_witness :
    processText true "hello  world".toList = [(1, cleanFragment "hello  world".toList)] :=
  (claim9_empty_and_single true "hello  world".toList).2.1 (by decide) (by decide)

end ClaimNine

section ClaimSix

/-- A pandas DataFrame: a shared column index plus rows of cell values. -/
structure PyDF where
  cols : List PyStr
  rows : List (List PyStr)

/-- `df.rename(columns={id_col: "ID", text_col: "Context"})` applied to one
column name: pandas silently ignores mapping keys that do not occur, and
when `id_col == text_col` the later dict entry (`"Context"`) wins. -/
def renameCol (id_col text_col c : PyStr) : PyStr :=
  if c = text_col then "Context".toList
  else if c = id_col then "ID".toList
  else c

/-- Position of the first column named `c`, if any. -/
def colIndex (cols : List PyStr) (c : PyStr) : Option Nat :=
  match cols with
  | [] => none
  | a :: t => if a == c then some 0 else (colIndex t c).map (· + 1)

/-- `row[c]` on a pandas row: `KeyError(c)` when the column is absent,
otherwise the cell under the first column of that name. -/
def rowGet (cols : List PyStr) (row : List PyStr) (c : PyStr) : Except PyStr PyStr :=
  match colIndex cols c with
  | none => .error c
  | some i => .ok (row.getD i [])

/-- One output row of `process_dataframe` (streamlit_app.py lines 140-148):
the carried-through `Likes`/`Comments` values sit in `extras`. -/
structure OutRow where
  id : PyStr
  context : PyStr
  sentenceId : Nat
  statement : PyStr
  category : PyStr
  extras : List PyStr
deriving DecidableEq

/-- Inner loop of `process_dataframe` (lines 138-149): one output row per
numbered sentence unit; each row accesses `row["ID"]`, `row["Context"]`
and the optional columns. -/
def buildRows (cols row : List PyStr) (cleaned : List PyStr) (kw : KwDict)
    (w : Nat) (optCols : List PyStr) : List (Nat × PyStr) → Except PyStr (List OutRow)
  | [] => .ok []
  | (i, s) :: rest => do
    let idv ← rowGet cols row "ID".toList
    let ctxv ← rowGet cols row "Context".toList
    let extras ← optCols.mapM (rowGet cols row)
    let tail ← buildRows cols row cleaned kw w optCols rest
    .ok (⟨idv, ctxv, i, s, classify_sentence_with_context (i - 1) cleaned w kw, extras⟩ :: tail)

/-- Row loop of `process_dataframe` (lines 130-149): `row["Context"]` is
accessed first (line 135) to segment the text. -/
def processRows (cols : List PyStr) (optCols : List PyStr) (kw : KwDict) (w : Nat)
    (hashtags : Bool) : List (List PyStr) → Except PyStr (List OutRow)
  | [] => .ok []
  | r :: rest => do
    let ctx ← rowGet cols r "Context".toList
    let cleaned := segmentText hashtags ctx
    let outs ← buildRows cols r cleaned kw w optCols (numberUnits cleaned)
    let tail ← processRows cols optCols kw w hashtags rest
    .ok (outs ++ tail)

/-- Embedding of `process_dataframe` (streamlit_app.py lines 122-150):
rename the chosen columns to `"ID"`/`"Context"` (pandas ignores absent
names), keep `"Likes"`/`"Comments"` when present, and emit one output row
per sentence unit. A missing column surfaces as a `KeyError` (carrying the
column name) at its first access; the exception aborts processing, so no
output is produced. -/
def process_dataframe (df : PyDF) (id_col text_col : PyStr) (kw : KwDict)
    (w : Nat) (hashtags : Bool) : Except PyStr (List OutRow) :=
  let cols := df.cols.map (renameCol id_col text_col)
  let optCols := ["Likes".toList, "Comments".toList].filter (fun c => cols.contains c)
  processRows cols optCols kw w hashtags df.rows

theorem colIndex_none_of_not_mem {c : PyStr} {cols : List PyStr} (h : c ∉ cols) :
    colIndex cols c = none := by
  induction cols with
  | nil => rfl
  | cons a t ih =>
    have ha : (a == c) = false := by
      simp only [beq_eq_false_iff_ne, ne_eq]
      intro hac
      exact h (hac ▸ List.mem_cons_self a t)
    show (if (a == c) = true then some 0 else (colIndex t c).map (· + 1)) = none
    rw [ha]
    simp only [Bool.false_eq_true, if_false]
    rw [ih (fun hmem => h (List.mem_cons_of_mem a hmem))]
    rfl

/-- C6 (amended): there is no pre-validation and no `ColumnNotFoundError`
type. When the post-rename column index lacks `"Context"` and the table
has at least one row, processing fails with a `KeyError` naming
`"Context"` raised while handling the first row, and the exception aborts
processing so no output is produced; a zero-row table instead succeeds
with empty output even though the requested columns are absent. -/
theorem claim6_column_errors (df : PyDF) (id_col text_col : PyStr) (kw : KwDict)
    (w : Nat) (hashtags : Bool) :
    (df.rows = [] → process_dataframe df id_col text_col kw w hashtags = .ok []) ∧
    ("Context".toList ∉ df.cols.map (renameCol id_col text_col) → df.rows ≠ [] →
      process_dataframe df id_col text_col kw w hashtags = .error "Context".toList) := by
  constructor
  · intro hrows
    unfold process_dataframe
    rw [hrows]
    rfl
  · intro hmem hrows
    unfold process_dataframe
    cases hr : df.rows with
    | nil => exact absurd hr hrows
    | cons r rest =>
      have hfind := colIndex_none_of_not_mem hmem
      simp only [processRows, rowGet, hfind]
      rfl

/-- Counterexample to C6 as stated: a zero-row table whose requested text
column `"B"` is absent is processed successfully (empty output, no error
of any kind), and a one-row table whose requested id column `"X"` is
absent also processes successfully — `rename` ignores the missing name and
the table already has `"ID"`/`"Context"` columns — so an absent requested
column does not make processing fail, let alone fail fast. -/
theorem claim6_counterexample :
    ("B".toList ∉ [["A".toList]].head!) ∧
    process_dataframe ⟨["A".toList], []⟩ "A".toList "B".toList [] 0 true = .ok [] ∧
    ("X".toList ∉ ["ID".toList, "Context".toList]) ∧
    process_dataframe ⟨["ID".toList, "Context".toList], [["7".toList, "hi".toList]]⟩
        "X".toList "Context".toList [] 0 true =
      .ok [⟨"7".toList, "hi".toList, 1, "hi".toList, uncategorized, []⟩] := by
  refine ⟨by decide, rfl, by decide, rfl⟩

/-- Witness for C6 (amended) at a concrete input. -/
theorem claim6_witness :
    process_dataframe ⟨["A".toList], [["x".toList]]⟩ "A".toList "B".toList [] 0 true =
      .error "Context".toList :=
  (claim6_column_errors ⟨["A".toList], [["x".toList]]⟩ "A".toList "B".toList [] 0 true).2
    (by decide) (by decide)

end ClaimSix

section ClaimSeven

/-- A parsed JSON value, as `json.loads` produces it. -/
inductive JVal where
  | jnull : JVal
  | jbool : Bool → JVal
  | jnum : Int → JVal
  | jstr : PyStr → JVal
  | jarr : List JVal → JVal
  | jobj : List (PyStr × JVal) → JVal

/-- The built-in `DEFAULT_DICT` (streamlit_app.py lines 38-43). -/
def defaultDictJ : JVal :=
  .jobj
    [("Fashion".toList, .jarr [.jstr "style".toList, .jstr "fashion".toList,
        .jstr "wardrobe".toList, .jstr "clothing".toList, .jstr "outfit".toList]),
     ("Food".toList, .jarr [.jstr "delicious".toList, .jstr "food".toList,
        .jstr "dinner".toList, .jstr "lunch".toList, .jstr "restaurant".toList]),
     ("Travel".toList, .jarr [.jstr "travel".toList, .jstr "trip".toList,
        .jstr "vacation".toList, .jstr "explore".toList, .jstr "journey".toList]),
     ("Fitness".toList, .jarr [.jstr "workout".toList, .jstr "fitness".toList,
        .jstr "exercise".toList, .jstr "gym".toList, .jstr "training".toList])]

/-- Embedding of the keyword-dictionary resolution (streamlit_app.py lines
77-83). The input is the result of `json.loads` on the sidebar text
(`none` models a `JSONDecodeError`). A non-object root raises `ValueError`;
both exceptions are caught by the handler, which shows a sidebar error and
substitutes `DEFAULT_DICT`. The Boolean records whether the error path ran
(error shown, default substituted). Values inside a root object are not
inspected at all. -/
def resolveKeywordDict : Option JVal → JVal × Bool
  | some (.jobj l) => (.jobj l, false)
  | some _ => (defaultDictJ, true)
  | none => (defaultDictJ, true)

/-- Does the parsed value exist and have an object root? -/
def isObjRoot : Option JVal → Bool
  | some (.jobj _) => true
  | _ => false

/-- C7 (amended): when the dictionary text is not valid JSON or its root is
not a JSON object, the app reports an error and automatically proceeds
with the built-in `DEFAULT_DICT` — there is no `InvalidDictionaryError`
surfaced to the caller and no opt-in to the fallback; a root JSON object
is accepted unchanged, with no validation of its values. -/
theorem claim7_dictionary_fallback (v : Option JVal) :
    (isObjRoot v = false → resolveKeywordDict v = (defaultDictJ, true)) ∧
    (∀ l, v = some (.jobj l) → resolveKeywordDict v = (.jobj l, false)) := by
  constructor
  · intro h
    match v with
    | none => rfl
    | some (.jobj l) => simp [isObjRoot] at h
    | some .jnull | some (.jbool _) | some (.jnum _) | some (.jstr _) | some (.jarr _) => rfl
  · intro l hl
    subst hl
    rfl

/-- Counterexample to C7 as stated: a non-mapping dictionary value (the
number 5) does not fail — the app silently proceeds with the non-empty
default dictionary, although the caller never opted into a fallback — and
an object whose value is not a list of strings (`{"a": 5}`) is accepted
unchanged with no error at all. -/
theorem claim7_counterexample :
    resolveKeywordDict (some (.jnum 5)) = (defaultDictJ, true) ∧
    defaultDictJ ≠ .jobj [] ∧
    resolveKeywordDict (some (.jobj [("a".toList, .jnum 5)])) =
      (.jobj [("a".toList, .jnum 5)], false) :=
  ⟨rfl, fun h => List.noConfusion (JVal.jobj.inj h), rfl⟩

/-- Witness for C7 (amended) at a concrete input. -/
theorem claim7_witness :
    resolveKeywordDict (some (.jarr [])) = (defaultDictJ, true) :=
  (claim7_dictionary_fallback (some (.jarr []))).1 rfl

end ClaimSeven

section ClaimEight

/-- C8 (amended): no dictionary compilation exists — phrases are used
verbatim by the classifier, untrimmed and with empty phrases retained —
so all that holds is: whenever the classifier returns a category other
than the sentinel, that category is a dictionary entry one of whose
phrases, exactly as supplied, occurs (lower-cased) in the context
window. -/
theorem claim8_no_compilation (i : Nat) (sents : List PyStr) (w : Nat) (d : KwDict)
    (h : classify_sentence_with_context i sents w d ≠ uncategorized) :
    ∃ ck ∈ d, classify_sentence_with_context i sents w d = ck.1 ∧
      ∃ k ∈ ck.2, isSubstr (pyLower k) (contextChunk i sents w) = true := by
  simp only [classify_sentence_with_context] at h ⊢
  rcases hf : d.find? (fun ck => anyKwMatches (contextChunk i sents w) ck.2) with _ | ck
  · rw [hf] at h
    simp at h
  · have hp := List.find?_some hf
    have hmem := List.mem_of_find?_eq_some hf
    simp only [anyKwMatches, List.any_eq_true] at hp
    obtain ⟨k, hk, hsub⟩ := hp
    exact ⟨ck, hmem, by rw [hf], k, hk, hsub⟩

/-- Counterexample to C8 as stated: with the dictionary `{"A": [""]}` the
classifier returns `"A"` on sentence `"x"` — the empty phrase was neither
trimmed away nor its category dropped, and it matches every window — and
with `{"A": [" "]}` the all-whitespace phrase (empty after trimming)
likewise matches `"a b"`; so categories used in classification need not
have any phrase that is non-empty after trimming. -/
theorem claim8_counterexample :
    classify_sentence_with_context 0 ["x".toList] 0 [("A".toList, [([] : PyStr)])] =
      "A".toList ∧
    pyStrip [] = [] ∧
    classify_sentence_with_context 0 ["a b".toList] 0 [("A".toList, [[' ']])] =
      "A".toList ∧
    pyStrip [' '] = [] := by
  refine ⟨by decide, rfl, by decide, by decide⟩

/-- Witness for C8 (amended) at a concrete input. -/
theorem claim8_witness :
    ∃ ck ∈ ([("A".toList, ["x".toList])] : KwDict),
      classify_sentence_with_context 0 ["x".toList] 0 [("A".toList, ["x".toList])] = ck.1 ∧
      ∃ k ∈ ck.2, isSubstr (pyLower k) (contextChunk 0 ["x".toList] 0) = true :=
  claim8_no_compilation 0 ["x".toList] 0 [("A".toList, ["x".toList])] (by decide)

end ClaimEight

section WordMetrics

/-- Python `str.split()` with no arguments: split on whitespace runs and
discard empty tokens (`cur` holds the current token, reversed). -/
def splitWSGo (cur : PyStr) : PyStr → List PyStr
  | [] => if cur.isEmpty then [] else [cur.reverse]
  | c :: rest =>
    if isWS c then
      if cur.isEmpty then splitWSGo [] rest else cur.reverse :: splitWSGo [] rest
    else splitWSGo (c :: cur) rest

/-- `s.split()` on a whole string. -/
def pySplitWhite (s : PyStr) : List PyStr := splitWSGo [] s

/-- `len(s.split())`: the whitespace-token count of a text. -/
def wordCount (s : PyStr) : Nat := (pySplitWhite s).length

/-- Python `round(q)`: banker's rounding, halves to the even neighbour.
Python floats are modelled as exact rationals. -/
def pyRound (q : ℚ) : ℤ :=
  let f := ⌊q⌋
  let r := q - f
  if r < 1/2 then f else if 1/2 < r then f + 1 else if 2 ∣ f then f else f + 1

/-- Python `round(q, 3)`. -/
def pyRound3 (q : ℚ) : ℚ := (pyRound (q * 1000) : ℚ) / 1000

/-- ID-level aggregation branch of Word_Metrics.py (lines 51-67), for one
group (the rows sharing one id) and one classifier column; a row is a
(text, classifier value) pair. Result:
`(total_word_count, word_count, percentage, continuous_score)`. -/
def aggregateGroup (g : List (PyStr × ℚ)) : ℕ × ℤ × ℤ × ℚ :=
  let statements := g.map (fun r => r.1)
  let total_words := (statements.map wordCount).sum
  let values := g.map (fun r => r.2)
  let positive_ratio : ℚ :=
    ((values.filter (fun v => 0 < v)).length : ℚ) / (values.length : ℚ)
  let word_count := pyRound ((total_words : ℚ) * positive_ratio)
  (total_words, word_count, pyRound (positive_ratio * 100), pyRound3 positive_ratio)

theorem length_filter_map_snd (g : List (PyStr × ℚ)) :
    ((g.map (fun r => r.2)).filter (fun v => decide (0 < v))).length =
      (g.filter (fun r => decide (0 < r.2))).length := by
  induction g with
  | nil => rfl
  | cons a t ih =>
    by_cases ha : (0 : ℚ) < a.2
    · simp [List.filter_cons, ha, ih]
    · simp [List.filter_cons, ha, ih]

/-- C3: in ID-level aggregation, for every non-empty group,
`positive_ratio` is the count of rows whose classifier value is `> 0`
divided by the group size, `word_count = round(total_word_count *
positive_ratio)`, `percentage = round(positive_ratio * 100)` and
`continuous_score = positive_ratio` rounded to 3 decimal places (with
`total_word_count` the sum of whitespace-token counts of the group's
texts); in particular any 4 rows with classifier values `[1, 0, 1, 0]`
totalling 40 words yield `positive_ratio = 0.5`, `word_count = 20`,
`percentage = 50`, `continuous_score = 0.5`. -/
theorem claim3_id_aggregation (g : List (PyStr × ℚ)) (hne : g ≠ []) :
    (aggregateGroup g =
      ((g.map (fun r => wordCount r.1)).sum,
       pyRound (((g.map (fun r => wordCount r.1)).sum : ℚ) *
         (((g.filter (fun r => 0 < r.2)).length : ℚ) / (g.length : ℚ))),
       pyRound ((((g.filter (fun r => 0 < r.2)).length : ℚ) / (g.length : ℚ)) * 100),
       pyRound3 (((g.filter (fun r => 0 < r.2)).length : ℚ) / (g.length : ℚ)))) ∧
    (∀ t1 t2 t3 t4 : PyStr,
      wordCount t1 + wordCount t2 + wordCount t3 + wordCount t4 = 40 →
      aggregateGroup [(t1, 1), (t2, 0), (t3, 1), (t4, 0)] = (40, 20, 50, 1/2)) := by
  constructor
  · simp only [aggregateGroup, List.map_map]
    rw [length_filter_map_snd g, List.length_map]
    rfl
  · intro t1 t2 t3 t4 hsum
    have h1 : (0 : ℚ) < 1 := by norm_num
    have h0 : ¬ (0 : ℚ) < 0 := by norm_num
    simp only [aggregateGroup, List.map_cons, List.map_nil, List.filter_cons,
      List.filter_nil, decide_eq_true_eq, List.sum_cons, List.sum_nil]
    rw [if_pos h1, if_neg h0, if_pos h1, if_neg h0]
    have htot : wordCount t1 + (wordCount t2 + (wordCount t3 + (wordCount t4 + 0))) = 40 := by
      omega
    rw [htot]
    norm_num [pyRound, pyRound3]

/-- Witness for C3 at a concrete input: four ten-word texts with values
`[1, 0, 1, 0]`. -/
theorem claim3_witness :
    aggregateGroup [("w w w w w w w w w w".toList, 1),
      ("w w w w w w w w w w".toList, 0), ("w w w w w w w w w w".toList, 1),
      ("w w w w w w w w w w".toList, 0)] = (40, 20, 50, 1/2) :=
  (claim3_id_aggregation [("w".toList, 1)] (by decide)).2
    "w w w w w w w w w w".toList "w w w w w w w w w w".toList
    "w w w w w w w w w w".toList "w w w w w w w w w w".toList (by decide)

/-- Statement-level Score Synthesizer (Word_Metrics.py lines 39-48) for one
classifier value: `jitter` models `random.uniform(-0.15, 0.15)` and `draw`
models `random.uniform(0.05, 0.4)`. -/
def synthScore (v jitter draw : ℚ) : ℚ :=
  if 0 < v then min (95/100) (max (1/2) (v + jitter))
  else max (5/100) (min (1/2) draw)

/-- The reported per-statement numbers (lines 47-48): `round(score, 3)`
and `round(score * 100)`. -/
def statementScores (v jitter draw : ℚ) : ℚ × ℤ :=
  (pyRound3 (synthScore v jitter draw), pyRound (synthScore v jitter draw * 100))

/-- C5: for any classifier value and any jitter/draw inside the stated
ranges, the synthesized score lies in [0.05, 0.95]; a positive value gives
the clamp of `v + jitter` to [0.5, 0.95], hence a score ≥ 0.5; a
non-positive value gives a score ≤ 0.5; the reported pair is
`(round(score, 3), round(score * 100))`. -/
theorem claim5_score_bounds (v jitter draw : ℚ)
    (hj1 : -(15/100) ≤ jitter) (hj2 : jitter ≤ 15/100)
    (hd1 : 5/100 ≤ draw) (hd2 : draw ≤ 40/100) :
    (5/100 ≤ synthScore v jitter draw ∧ synthScore v jitter draw ≤ 95/100) ∧
    (0 < v → 1/2 ≤ synthScore v jitter draw ∧
      synthScore v jitter draw = min (95/100) (max (1/2) (v + jitter))) ∧
    (¬ 0 < v → synthScore v jitter draw ≤ 1/2) ∧
    statementScores v jitter draw =
      (pyRound3 (synthScore v jitter draw), pyRound (synthScore v jitter draw * 100)) := by
  by_cases hv : 0 < v
  · have hs : synthScore v jitter draw = min (95/100) (max (1/2) (v + jitter)) := by
      simp only [synthScore, if_pos hv]
    have hge : (1 : ℚ)/2 ≤ synthScore v jitter draw := by
      rw [hs]
      exact le_min (by norm_num) (le_max_left _ _)
    have hle : synthScore v jitter draw ≤ 95/100 := by
      rw [hs]
      exact min_le_left _ _
    exact ⟨⟨le_trans (by norm_num) hge, hle⟩, fun _ => ⟨hge, hs⟩,
      fun hnv => absurd hv hnv, rfl⟩
  · have hs : synthScore v jitter draw = max (5/100) (min (1/2) draw) := by
      simp only [synthScore, if_neg hv]
    have h2 : synthScore v jitter draw ≤ 1/2 := by
      rw [hs]
      exact max_le (by norm_num) (min_le_left _ _)
    have h3 : (5 : ℚ)/100 ≤ synthScore v jitter draw := by
      rw [hs]
      exact le_max_left _ _
    exact ⟨⟨h3, le_trans h2 (by norm_num)⟩, fun h => absurd h hv, fun _ => h2, rfl⟩

/-- Witness for C5 at a concrete input. -/
theorem claim5_witness :
    5/100 ≤ synthScore 1 0 (1/10) ∧ synthScore 1 0 (1/10) ≤ 95/100 :=
  (claim5_score_bounds 1 0 (1/10) (by norm_num) (by norm_num) (by norm_num)
    (by norm_num)).1

end WordMetrics
